import Mathlib

/-!
Verification of the steady-state linear transport engine
(`openpnm/algorithms/GenericTransport.py`).

The embedding works over `ℚ`.  Boundary-condition arrays are stored in the
source as float arrays whose "unset" sentinel is NaN; here each entry is an
`Option ℚ` with `none` playing the role of NaN (in particular `NaN + v = NaN`
becomes `Option.map` over `none`).  The sparse system matrix is embedded by its
values as a total function `Fin n → Fin n → ℚ`: every operation the engine
performs on the sparse structure (zeroing rows/columns, `setdiag`,
`eliminate_zeros`) is value-preserving under this view.
-/

/-- A dense view of an `n × n` sparse matrix: only entry values matter. -/
abbrev Mat (n : ℕ) := Fin n → Fin n → ℚ

/-- A dense length-`n` vector. -/
abbrev Vec (n : ℕ) := Fin n → ℚ

/-- Matrix–vector product, as in `self.A.tocsr() * x_BC`. -/
def matVec {n : ℕ} (A : Mat n) (x : Vec n) : Vec n :=
  fun i => ∑ j, A i j * x j

/-- Modelled from the spec: `network.create_adjacency_matrix(weights=g, fmt='coo')`
(the Network collaborator's "adjacency-matrix construction primitive that accepts
per-edge weights and returns a sparse matrix in a coordinate-entry format";
its code is outside the analyzed source).  Each edge `e` with endpoints
`conns e = (i, j)` contributes its weight `g e` at the coordinates `(i, j)` and
`(j, i)`; coordinate entries at equal positions (parallel edges) accumulate. -/
def create_adjacency_matrix {n m : ℕ} (conns : Fin m → Fin n × Fin n)
    (g : Fin m → ℚ) : Mat n :=
  fun i j => (∑ e, if conns e = (i, j) then g e else 0)
           + (∑ e, if conns e = (j, i) then g e else 0)

/-- Modelled from the spec: `scipy.sparse.csgraph.laplacian` (third-party),
`L = D - A` with the degree of a node the sum of its off-diagonal row entries
(self-loop weights are ignored, as in `csgraph`). -/
def laplacian {n : ℕ} (A : Mat n) : Mat n :=
  fun i j => if i = j then (∑ k, A i k) - A i i else -(A i j)

/-- The pure (boundary-condition free) system matrix built by
`GenericTransport._build_A`: `spgr.laplacian(network.create_adjacency_matrix(weights=g))`. -/
def build_pure_A {n m : ℕ} (conns : Fin m → Fin n × Fin n) (g : Fin m → ℚ) : Mat n :=
  laplacian (create_adjacency_matrix conns g)

/-- The total conductance between a pair of nodes: the per-edge conductance
summed over parallel edges (in either orientation). -/
def conductance_between {n m : ℕ} (conns : Fin m → Fin n × Fin n) (g : Fin m → ℚ)
    (i j : Fin n) : ℚ :=
  ∑ e, if conns e = (i, j) ∨ conns e = (j, i) then g e else 0

/-- The two BC kinds accepted by `_set_BC` (`bctype ∈ {value, rate}`). -/
inductive BCKind where
  | value : BCKind
  | rate : BCKind
deriving DecidableEq

/-- The two BC application modes (`mode ∈ {merge, overwrite}`). -/
inductive BCMode where
  | merge : BCMode
  | overwrite : BCMode
deriving DecidableEq

/-- The state of one `GenericTransport` algorithm instance: the cached pure
matrix/vector (`self._pure_A`, `self._pure_b`), the working copies
(`self._A`, `self._b`), the two per-pore BC arrays (`pore.bc_value`,
`pore.bc_rate`, with `none` for the NaN sentinel), and the stored quantity
field.  The network's connectivity and the phase's conductance live on
collaborator objects and are passed separately. -/
structure AlgState (n : ℕ) where
  pure_A : Option (Mat n)
  work_A : Option (Mat n)
  pure_b : Option (Vec n)
  work_b : Option (Vec n)
  bc_value : Fin n → Option ℚ
  bc_rate : Fin n → Option ℚ
  quantity : Option (Vec n)

/-- A freshly constructed algorithm: `_A = _pure_A = None`, `_b = _pure_b = None`,
both BC arrays all-NaN, no quantity stored. -/
def algInit (n : ℕ) : AlgState n :=
  ⟨none, none, none, none, fun _ => none, fun _ => none, none⟩

/-- `GenericTransport._set_BC(pores, bctype, bcvalues, mode)`.  `vals i` is the
boundary value destined for pore `i` (covering both the scalar-broadcast and
the matching-length-array call shapes of the source).  Mirrors the source
statement by statement: the finiteness mask of `pore.bc_rate` is taken before
any reset; `mode='overwrite'` first resets the whole array of that kind to
NaN; `value` BCs are plainly assigned at `pores`; `rate` BCs are accumulated
(`+=`) at pores already carrying a finite rate (an addition that propagates
the NaN sentinel) and plainly assigned at the remaining requested pores. -/
def set_BC {n : ℕ} (st : AlgState n) (pores : Finset (Fin n)) (bctype : BCKind)
    (vals : Fin n → ℚ) (mode : BCMode) : AlgState n :=
  let rate_BC_mask : Fin n → Bool := fun i => (st.bc_rate i).isSome
  match bctype with
  | BCKind.value =>
      let arr0 : Fin n → Option ℚ :=
        if mode = BCMode.overwrite then (fun _ => none) else st.bc_value
      { st with bc_value := fun i => if i ∈ pores then some (vals i) else arr0 i }
  | BCKind.rate =>
      let arr0 : Fin n → Option ℚ :=
        if mode = BCMode.overwrite then (fun _ => none) else st.bc_rate
      { st with bc_rate := fun i =>
          if i ∈ pores then
            if rate_BC_mask i then (arr0 i).map (fun r => r + vals i)
            else some (vals i)
          else arr0 i }

/-- `set_value_BC(pores, values, mode)` forwards to `_set_BC` with `bctype='value'`. -/
def set_value_BC {n : ℕ} (st : AlgState n) (pores : Finset (Fin n))
    (vals : Fin n → ℚ) (mode : BCMode) : AlgState n :=
  set_BC st pores BCKind.value vals mode

/-- `set_rate_BC(pores, values, mode)` forwards to `_set_BC` with `bctype='rate'`. -/
def set_rate_BC {n : ℕ} (st : AlgState n) (pores : Finset (Fin n))
    (vals : Fin n → ℚ) (mode : BCMode) : AlgState n :=
  set_BC st pores BCKind.rate vals mode

/-! ## System assembly (`GenericTransport._apply_BCs`) -/

/-- The vector `x_BC` of `_apply_BCs`: the finite `Value` BC entries, zero
elsewhere. -/
def x_BC_of {n : ℕ} (bc_value : Fin n → Option ℚ) : Vec n :=
  fun j => (bc_value j).getD 0

/-- The scale factor `f = self.A.diagonal().mean()` of `_apply_BCs`. -/
def mean_diag {n : ℕ} (A : Mat n) : ℚ :=
  (∑ i, A i i) / (n : ℚ)

/-- `GenericTransport._apply_BCs` acting on a system `(A, b)`, statement by
statement:
1. rows with a finite `Rate` BC get `b[i] = rate`;
2. `f = mean(diag(A))` (taken from `A` before any matrix mutation);
3. rows with a finite `Value` BC get `b[i] = value[i] * f`;
4. every other row `k` gets `b[k] -= (A @ x_BC)[k]` (with `A` still unmutated);
5. every entry of `A` in a `Value`-BC row or column is zeroed and the diagonal
   of each such row is set to `f` (`eliminate_zeros` only prunes the sparse
   structure and does not change any value). -/
def apply_BCs {n : ℕ} (bc_rate bc_value : Fin n → Option ℚ) (A : Mat n)
    (b : Vec n) : Mat n × Vec n :=
  let b1 : Vec n := fun i =>
    if (bc_rate i).isSome then (bc_rate i).getD 0 else b i
  let f : ℚ := mean_diag A
  let b2 : Vec n := fun i =>
    if (bc_value i).isSome then (bc_value i).getD 0 * f else b1 i
  let b3 : Vec n := fun k =>
    if (bc_value k).isSome then b2 k else b2 k - matVec A (x_BC_of bc_value) k
  let A1 : Mat n := fun i j =>
    if (bc_value i).isSome ∨ (bc_value j).isSome then 0 else A i j
  let A2 : Mat n := fun i j =>
    if i = j then (if (bc_value i).isSome then f else A1 i i) else A1 i j
  (A2, b3)

/-! ## Lazy build and caching (`_build_A`, `_build_b`, the `A`/`b` properties) -/

/-- Reading the `b` property (`_get_b`): returns the working vector, building
it via `_build_b` first when absent.  `_build_b` drops the cached pure vector
when `cache_b` is off, rebuilds it (a zero vector) when absent, and installs a
copy of it as the working vector. -/
def get_b {n : ℕ} (cache_b : Bool) (st : AlgState n) : Vec n × AlgState n :=
  match st.work_b with
  | some b => (b, st)
  | none =>
      let st := if cache_b then st else { st with pure_b := none }
      let pb : Vec n := match st.pure_b with
        | some p => p
        | none => fun _ => 0
      (pb, { st with pure_b := some pb, work_b := some pb })

/-- Reading the `A` property (`_get_A`): returns the working matrix, building
it via `_build_A` first when absent.  `_build_A` drops the cached pure matrix
when `cache_A` is off, rebuilds it from the current conductances when absent,
and installs a copy of it as the working matrix. -/
def get_A {n m : ℕ} (cache_A : Bool) (conns : Fin m → Fin n × Fin n)
    (g : Fin m → ℚ) (st : AlgState n) : Mat n × AlgState n :=
  match st.work_A with
  | some A => (A, st)
  | none =>
      let st := if cache_A then st else { st with pure_A := none }
      let pA : Mat n := match st.pure_A with
        | some p => p
        | none => build_pure_A conns g
      (pA, { st with pure_A := some pA, work_A := some pA })

/-- `self._apply_BCs()` as a state step: fetch `self.b` and `self.A` through
their properties (building lazily if needed) and store the transformed system
back into the working copies. -/
def apply_BCs_state {n m : ℕ} (cache_A cache_b : Bool)
    (conns : Fin m → Fin n × Fin n) (g : Fin m → ℚ) (st : AlgState n) : AlgState n :=
  let pb := get_b cache_b st
  let pA := get_A cache_A conns g pb.2
  let Ab := apply_BCs pA.2.bc_rate pA.2.bc_value pA.1 pb.1
  { pA.2 with work_A := some Ab.1, work_b := some Ab.2 }

/-! ## Solver dispatch (`GenericTransport._solve`) -/

/-- Modelled from the spec: a pluggable linear-solver backend (`scipy`,
`petsc`, `pyamg` — all outside the analyzed source), "polymorphic over a
single capability: solve Ax=b given tolerances and an iteration budget,
returning x"; it receives the matrix, the right-hand side and the initial
guess. -/
abbrev Backend (n : ℕ) := Mat n → Vec n → Vec n → Vec n

/-- Modelled from the spec: `op.utils.is_symmetric` (outside the analyzed
source) decides whether the matrix is numerically symmetric. -/
def is_symmetric {n : ℕ} (A : Mat n) : Prop :=
  ∀ i j, A i j = A j i

instance {n : ℕ} (A : Mat n) : Decidable (is_symmetric A) :=
  inferInstanceAs (Decidable (∀ i j, A i j = A j i))

/-- `GenericTransport._solve` with `A`/`b` taken from the object: missing
system is a fatal error; with the `cg` solver variant configured, an
asymmetric matrix is a fatal error raised before any backend is invoked;
otherwise the backend solves the system (the solution vector it returns, or
its convergence failure, is the backend's affair). -/
def solve {n : ℕ} (solver_type : String) (backend : Backend n)
    (A : Option (Mat n)) (b : Option (Vec n)) (x0 : Vec n) : Except String (Vec n) :=
  match A, b with
  | some A, some b =>
      if solver_type = "cg" ∧ ¬ is_symmetric A then
        Except.error "CG solver only works on symmetric matrices."
      else
        Except.ok (backend A b x0)
  | _, _ => Except.error "The A matrix or the b vector not yet built."

/-- `run(x0)` / `_run_generic(x0)`: apply the BCs onto the working system,
replace the caller's initial guess by `np.zeros_like(self.b)`, solve, and
store the solution under the quantity key.  The second component reports the
exception text when the solve raises (in which case the quantity field is
left untouched, though the BC application's mutations persist). -/
def run_generic {n m : ℕ} (backend : Backend n) (solver_type : String)
    (cache_A cache_b : Bool) (conns : Fin m → Fin n × Fin n) (g : Fin m → ℚ)
    (x0 : Option (Vec n)) (st : AlgState n) : AlgState n × Option String :=
  let st1 := apply_BCs_state cache_A cache_b conns g st
  let x0 : Vec n := fun _ => 0
  match solve solver_type backend st1.work_A st1.work_b x0 with
  | Except.error e => (st1, some e)
  | Except.ok x => ({ st1 with quantity := some x }, none)

/-! ## Post-solve analytics (`GenericTransport.rate`) -/

/-- The per-throat signed flux `Qt` of `rate`: with a scalar per-edge
conductance, after the tile and the column flip, `np.diff(g*X12, axis=1)`
is `g[t] * x[conns[t][1]] - g[t] * x[conns[t][0]]`. -/
def rate_Qt {n m : ℕ} (conns : Fin m → Fin n × Fin n) (g : Fin m → ℚ)
    (x : Vec n) : Fin m → ℚ :=
  fun t => g t * x (conns t).2 - g t * x (conns t).1

/-- The per-pore net flux `Qp` of `rate`: `np.add.at(Qp, P12[:, 0], -Qt)`
followed by `np.add.at(Qp, P12[:, 1], Qt)`. -/
def rate_Qp {n m : ℕ} (conns : Fin m → Fin n × Fin n) (g : Fin m → ℚ)
    (x : Vec n) : Vec n :=
  fun p => (∑ t, if (conns t).1 = p then -(rate_Qt conns g x t) else 0)
         + (∑ t, if (conns t).2 = p then rate_Qt conns g x t else 0)

/-- `GenericTransport.rate(pores, throats, mode)` for a solved quantity field
`x`.  Specifying both pores and throats, or neither, is a fatal input error.
For throats the absolute flux is reported, for pores the net flux; `'group'`
mode sums the selection.  The result array is embedded as a multiset of its
entries. -/
def rate {n m : ℕ} (conns : Fin m → Fin n × Fin n) (g : Fin m → ℚ) (x : Vec n)
    (pores : Finset (Fin n)) (throats : Finset (Fin m)) (mode : String) :
    Except String (Multiset ℚ) :=
  if throats.Nonempty ∧ pores.Nonempty then
    Except.error "Must specify either pores or throats, not both"
  else if ¬ throats.Nonempty ∧ ¬ pores.Nonempty then
    Except.error "Must specify either pores or throats"
  else if throats.Nonempty then
    let R := throats.val.map (fun t => |rate_Qt conns g x t|)
    Except.ok (if mode = "group" then {R.sum} else R)
  else
    let R := pores.val.map (fun p => rate_Qp conns g x p)
    Except.ok (if mode = "group" then {R.sum} else R)

/-! ## Theorems about boundary-condition application (claim C1) -/

/-- Witness for C1 on a two-node system with a unit `Value` BC at node 0. -/
def wA : Mat 2 := fun i j => if i = j then 1 else -1

/-- Witness RHS: the pure zero vector. -/
def wb : Vec 2 := fun _ => 0

/-- Witness BC array: `Value` BC `1` at node 0 only. -/
def wbc : Fin 2 → Option ℚ := fun i => if i = 0 then some 1 else none

/-- The state for the C5 failing input: one pore carrying rate BC `1`. -/
def stC5 : AlgState 1 := set_rate_BC (algInit 1) {0} (fun _ => 1) BCMode.merge

/-- A concrete asymmetric 2×2 matrix for the C8 witness. -/
def asymA : Mat 2 := fun i j => if i = 0 ∧ j = 1 then 1 else 0

/-- The C8 witness state: working copies installed, no BCs. -/
def stAsym : AlgState 2 :=
  { algInit 2 with work_A := some asymA, work_b := some (fun _ => 0) }

/-- A two-pore network with one throat. -/
def twoConns : Fin 1 → Fin 2 × Fin 2 := fun _ => (0, 1)

/-- Unit conductance on the single throat. -/
def twoG : Fin 1 → ℚ := fun _ => 1

/-- Two-pore algorithm with a `Value` BC of `1` at pore 0. -/
def stTwo : AlgState 2 := set_value_BC (algInit 2) {0} (fun _ => 1) BCMode.merge

/-- The algorithm state after one `run`. -/
def stTwoRun : AlgState 2 :=
  (run_generic (fun _ _ _ => fun _ => 0) "spsolve" true true twoConns twoG
    none stTwo).1

/-- The 1D chain of 5 nodes: throat `e` connects nodes `e` and `e+1`. -/
def chainConns : Fin 4 → Fin 5 × Fin 5 :=
  fun e => (⟨e.val, by omega⟩, ⟨e.val + 1, by omega⟩)

/-- Unit conductance on each of the 4 throats. -/
def chainG : Fin 4 → ℚ := fun _ => 1

/-- The chain algorithm: `Value` BC `1.0` at node 0 and `0.0` at node 4. -/
def stChain : AlgState 5 :=
  set_value_BC (set_value_BC (algInit 5) {0} (fun _ => 1) BCMode.merge)
    {4} (fun _ => 0) BCMode.merge

/-- The assembled system of the chain scenario. -/
def chainSystem : Mat 5 × Vec 5 :=
  apply_BCs stChain.bc_rate stChain.bc_value (build_pure_A chainConns chainG)
    (fun _ => 0)

/-- The assembled chain matrix. -/
def chainA : Mat 5 := chainSystem.1

/-- The assembled chain right-hand side. -/
def chainB : Vec 5 := chainSystem.2

/-- The linearly interpolated solution field `[1, 3/4, 1/2, 1/4, 0]`. -/
def chainX : Vec 5 := fun i =>
  if i = 0 then 1 else if i = 1 then 3/4 else if i = 2 then 1/2
  else if i = 3 then 1/4 else 0

/-- The assembled chain matrix, entry by entry. -/
def chainAmat : Mat 5 := fun i j =>
  if i = 0 then (if j = 0 then 8/5 else 0)
  else if i = 1 then (if j = 1 then 2 else if j = 2 then -1 else 0)
  else if i = 2 then (if j = 1 then -1 else if j = 2 then 2 else if j = 3 then -1 else 0)
  else if i = 3 then (if j = 2 then -1 else if j = 3 then 2 else 0)
  else (if j = 4 then 8/5 else 0)

/-- The assembled chain right-hand side, entry by entry. -/
def chainBvec : Vec 5 := fun i => if i = 0 then 8/5 else if i = 1 then 1 else 0

lemma create_adjacency_matrix_symm {n m : ℕ} (conns : Fin m → Fin n × Fin n)
    (g : Fin m → ℚ) (i j : Fin n) :
    create_adjacency_matrix conns g i j = create_adjacency_matrix conns g j i := by
  unfold create_adjacency_matrix
  exact add_comm _ _

lemma create_adjacency_matrix_eq_conductance {n m : ℕ} (conns : Fin m → Fin n × Fin n)
    (g : Fin m → ℚ) (i j : Fin n) (hij : i ≠ j) :
    create_adjacency_matrix conns g i j = conductance_between conns g i j := by
  unfold create_adjacency_matrix conductance_between
  rw [← Finset.sum_add_distrib]
  refine Finset.sum_congr rfl (fun e _ => ?_)
  by_cases h1 : conns e = (i, j)
  · have h2 : ¬ conns e = (j, i) := fun h2 => hij (congrArg Prod.fst (h1.symm.trans h2))
    rw [if_pos h1, if_neg h2, add_zero, if_pos (Or.inl h1)]
  · by_cases h2 : conns e = (j, i)
    · rw [if_neg h1, if_pos h2, zero_add, if_pos (Or.inr h2)]
    · rw [if_neg h1, if_neg h2, add_zero, if_neg (fun h => h.elim h1 h2)]

lemma laplacian_row_sum {n : ℕ} (A : Mat n) (i : Fin n) :
    ∑ j, laplacian A i j = 0 := by
  unfold laplacian
  rw [← Finset.sum_erase_add _ _ (Finset.mem_univ i), if_pos rfl]
  have herase : (∑ x ∈ Finset.univ.erase i,
      if i = x then (∑ k, A i k) - A i i else -(A i x))
      = ∑ x ∈ Finset.univ.erase i, -(A i x) :=
    Finset.sum_congr rfl (fun x hx => if_neg (fun h => Finset.ne_of_mem_erase hx h.symm))
  rw [herase, Finset.sum_neg_distrib,
    ← Finset.sum_erase_add Finset.univ (fun k => A i k) (Finset.mem_univ i)]
  ring

lemma laplacian_diag {n : ℕ} (A : Mat n) (i : Fin n) :
    laplacian A i i = -(∑ j ∈ Finset.univ.erase i, laplacian A i j) := by
  unfold laplacian
  rw [if_pos rfl]
  have herase : (∑ x ∈ Finset.univ.erase i,
      if i = x then (∑ k, A i k) - A i i else -(A i x))
      = ∑ x ∈ Finset.univ.erase i, -(A i x) :=
    Finset.sum_congr rfl (fun x hx => if_neg (fun h => Finset.ne_of_mem_erase hx h.symm))
  rw [herase, Finset.sum_neg_distrib,
    ← Finset.sum_erase_add Finset.univ (fun k => A i k) (Finset.mem_univ i)]
  ring

/-- Claim C2: for every assignment of per-edge conductances, the pure system
matrix built by `_build_A` is symmetric, every row sums to zero, its
off-diagonal entry `(i, j)` is minus the conductance between `i` and `j`
summed over parallel edges, and each diagonal entry is the negative sum of
that row's off-diagonal entries (weighted graph Laplacian). -/
theorem build_pure_A_is_graph_laplacian {n m : ℕ} (conns : Fin m → Fin n × Fin n)
    (g : Fin m → ℚ) :
    (∀ i j, build_pure_A conns g i j = build_pure_A conns g j i)
    ∧ (∀ i, ∑ j, build_pure_A conns g i j = 0)
    ∧ (∀ i j, i ≠ j → build_pure_A conns g i j = -(conductance_between conns g i j))
    ∧ (∀ i, build_pure_A conns g i i
        = -(∑ j ∈ Finset.univ.erase i, build_pure_A conns g i j)) := by
  refine ⟨?_, ?_, ?_, ?_⟩
  · intro i j
    unfold build_pure_A laplacian
    by_cases h : i = j
    · subst h; simp
    · rw [if_neg h, if_neg (fun hji => h hji.symm), neg_inj]
      exact create_adjacency_matrix_symm conns g i j
  · intro i
    exact laplacian_row_sum (create_adjacency_matrix conns g) i
  · intro i j hij
    unfold build_pure_A laplacian
    rw [if_neg hij, create_adjacency_matrix_eq_conductance conns g i j hij]
  · intro i
    exact laplacian_diag (create_adjacency_matrix conns g) i

/-! ## Boundary-condition store (`GenericTransport._set_BC`) -/

/-- Claim C1: with only `Value` BCs present, `_apply_BCs` uses the scale
factor `f = mean(diag(A))` taken from the unmutated matrix, and afterwards
every `Value`-BC row `i` has `A[i,i] = f`, zeros everywhere else in row `i`
and column `i`, and `b[i] = value[i] * f`, while every non-BC row `k` has had
`b[k]` decremented by `Σ_j A[k,j] * x_BC[j]`. -/
theorem apply_BCs_value_elimination {n : ℕ} (A : Mat n) (b : Vec n)
    (bc_value : Fin n → Option ℚ) :
    (∀ i v, bc_value i = some v →
        (apply_BCs (fun _ => none) bc_value A b).1 i i = mean_diag A
        ∧ (∀ j, j ≠ i → (apply_BCs (fun _ => none) bc_value A b).1 i j = 0
            ∧ (apply_BCs (fun _ => none) bc_value A b).1 j i = 0)
        ∧ (apply_BCs (fun _ => none) bc_value A b).2 i = v * mean_diag A)
    ∧ (∀ k, bc_value k = none →
        (apply_BCs (fun _ => none) bc_value A b).2 k
          = b k - ∑ j, A k j * x_BC_of bc_value j) := by
  constructor
  · intro i v hv
    refine ⟨?_, ?_, ?_⟩
    · simp [apply_BCs, hv]
    · intro j hj
      constructor
      · simp [apply_BCs, hv, (hj.symm : i ≠ j)]
      · simp [apply_BCs, hv, hj]
    · simp [apply_BCs, hv]
  · intro k hk
    simp [apply_BCs, hk, matVec]

theorem apply_BCs_value_elimination_witness :
    (apply_BCs (fun _ => none) wbc wA wb).1 0 0 = mean_diag wA
    ∧ (apply_BCs (fun _ => none) wbc wA wb).1 0 1 = 0
    ∧ (apply_BCs (fun _ => none) wbc wA wb).1 1 0 = 0
    ∧ (apply_BCs (fun _ => none) wbc wA wb).2 0 = 1 * mean_diag wA
    ∧ (apply_BCs (fun _ => none) wbc wA wb).2 1 = wb 1 - ∑ j, wA 1 j * x_BC_of wbc j := by
  have h := apply_BCs_value_elimination wA wb wbc
  have h0 := h.1 0 1 (by decide)
  exact ⟨h0.1, (h0.2.1 1 (by decide)).1, (h0.2.1 1 (by decide)).2, h0.2.2,
    h.2 1 (by decide)⟩

/-! ## Theorems about the BC store (claims C4, C5) -/

/-- Claim C4: merge-mode `Rate` BCs accumulate at already-rate-bound nodes
(`r1` then `r2` stores `r1 + r2`), leave nodes outside the request untouched,
and assign the supplied value directly at rate-unbound requested nodes. -/
theorem set_rate_BC_merge_accumulates {n : ℕ} :
    (∀ (st : AlgState n) (p : Fin n) (r1 r2 : ℚ), st.bc_rate p = none →
      (set_rate_BC (set_rate_BC st {p} (fun _ => r1) BCMode.merge) {p}
          (fun _ => r2) BCMode.merge).bc_rate p = some (r1 + r2))
    ∧ (∀ (st : AlgState n) (P : Finset (Fin n)) (vals : Fin n → ℚ) (i : Fin n),
        i ∉ P → (set_rate_BC st P vals BCMode.merge).bc_rate i = st.bc_rate i)
    ∧ (∀ (st : AlgState n) (P : Finset (Fin n)) (vals : Fin n → ℚ) (i : Fin n),
        i ∈ P → st.bc_rate i = none →
        (set_rate_BC st P vals BCMode.merge).bc_rate i = some (vals i)) := by
  refine ⟨?_, ?_, ?_⟩
  · intro st p r1 r2 h
    simp [set_rate_BC, set_BC, h]
  · intro st P vals i h
    simp [set_rate_BC, set_BC, h]
  · intro st P vals i hmem h
    simp [set_rate_BC, set_BC, hmem, h]

theorem set_rate_BC_merge_accumulates_witness :
    (set_rate_BC (set_rate_BC (algInit 2) {0} (fun _ => 1) BCMode.merge) {0}
        (fun _ => 2) BCMode.merge).bc_rate 0 = some (1 + 2)
    ∧ (set_rate_BC (algInit 2) {0} (fun _ => 5) BCMode.merge).bc_rate 1
        = (algInit 2).bc_rate 1
    ∧ (set_rate_BC (algInit 2) {0} (fun _ => 5) BCMode.merge).bc_rate 0
        = some 5 := by
  refine ⟨(set_rate_BC_merge_accumulates).1 (algInit 2) 0 1 2 rfl,
    (set_rate_BC_merge_accumulates).2.1 (algInit 2) {0} (fun _ => 5) 1 (by decide),
    ?_⟩
  have h := (set_rate_BC_merge_accumulates).2.2 (algInit 2) {0} (fun _ => 5) 0
    (by decide) rfl
  exact h

/-- Claim C5 (code bug): overwrite-mode `set_rate_BC` at a node that already
carries a finite rate leaves that node UNSET instead of holding the new
value: the whole array is first reset to NaN, but the subsequent `+=` at
previously-rate-bound pores (selected by the pre-reset finiteness mask) adds
the new value to NaN, which stays NaN.  The value kind behaves as documented. -/
theorem set_rate_BC_overwrite_loses_previously_bound :
    stC5.bc_rate 0 = some 1
    ∧ (set_rate_BC stC5 {0} (fun _ => 2) BCMode.overwrite).bc_rate 0 = none
    ∧ (set_value_BC stC5 {0} (fun _ => 2) BCMode.overwrite).bc_value 0 = some 2 := by
  decide

/-! ## Theorems about `rate` input validation (claim C9) -/

/-- Claim C9: `rate` with both pores and throats non-empty is a fatal input
error, and with both empty likewise (the embedding of `rate` is a pure
function of the algorithm state, so no state is modified in either case). -/
theorem rate_requires_exactly_one_selection {n m : ℕ}
    (conns : Fin m → Fin n × Fin n) (g : Fin m → ℚ) (x : Vec n) (mode : String) :
    (∀ (pores : Finset (Fin n)) (throats : Finset (Fin m)),
      pores.Nonempty → throats.Nonempty →
      rate conns g x pores throats mode
        = Except.error "Must specify either pores or throats, not both")
    ∧ rate conns g x (∅ : Finset (Fin n)) (∅ : Finset (Fin m)) mode
        = Except.error "Must specify either pores or throats" := by
  constructor
  · intro pores throats hp ht
    unfold rate
    rw [if_pos ⟨ht, hp⟩]
  · unfold rate
    rw [if_neg (fun h => Finset.not_nonempty_empty h.1),
      if_pos ⟨Finset.not_nonempty_empty, Finset.not_nonempty_empty⟩]

theorem rate_requires_exactly_one_selection_witness :
    rate (fun _ => ((0 : Fin 2), (1 : Fin 2))) (fun _ => (1 : ℚ)) (fun _ => 0)
        ({0} : Finset (Fin 2)) ({0} : Finset (Fin 1)) "group"
      = Except.error "Must specify either pores or throats, not both"
    ∧ rate (fun _ => ((0 : Fin 2), (1 : Fin 2))) (fun _ => (1 : ℚ)) (fun _ => 0)
        (∅ : Finset (Fin 2)) (∅ : Finset (Fin 1)) "group"
      = Except.error "Must specify either pores or throats" :=
  ⟨(rate_requires_exactly_one_selection _ _ _ _).1 {0} {0}
      (by decide) (by decide),
    (rate_requires_exactly_one_selection _ _ _ _).2⟩

/-! ## The initial guess is discarded (claim C10) -/

/-- Claim C10: `run` overwrites the caller-supplied initial guess with
`np.zeros_like(self.b)` before dispatching the solve, so the outcome of a run
is independent of the `x0` argument. -/
theorem run_ignores_initial_guess {n m : ℕ} (backend : Backend n)
    (solver_type : String) (cache_A cache_b : Bool)
    (conns : Fin m → Fin n × Fin n) (g : Fin m → ℚ) (st : AlgState n)
    (x0a x0b : Option (Vec n)) :
    run_generic backend solver_type cache_A cache_b conns g x0a st
      = run_generic backend solver_type cache_A cache_b conns g x0b st := rfl

/-! ## Flux conservation (claim C7) -/

lemma rate_Qp_total {n m : ℕ} (conns : Fin m → Fin n × Fin n) (g : Fin m → ℚ)
    (x : Vec n) : ∑ p, rate_Qp conns g x p = 0 := by
  unfold rate_Qp
  rw [Finset.sum_add_distrib]
  have h1 : ∑ p, ∑ t, (if (conns t).1 = p then -(rate_Qt conns g x t) else 0)
      = ∑ t, -(rate_Qt conns g x t) := by
    rw [Finset.sum_comm]
    refine Finset.sum_congr rfl (fun t _ => ?_)
    rw [Finset.sum_ite_eq]
    simp
  have h2 : ∑ p, ∑ t, (if (conns t).2 = p then rate_Qt conns g x t else 0)
      = ∑ t, rate_Qt conns g x t := by
    rw [Finset.sum_comm]
    refine Finset.sum_congr rfl (fun t _ => ?_)
    rw [Finset.sum_ite_eq]
    simp
  rw [h1, h2, Finset.sum_neg_distrib]
  ring

lemma rate_Qp_sum_compl {n m : ℕ} (conns : Fin m → Fin n × Fin n) (g : Fin m → ℚ)
    (x : Vec n) (X : Finset (Fin n)) :
    ∑ p ∈ Xᶜ, rate_Qp conns g x p = -(∑ p ∈ X, rate_Qp conns g x p) := by
  have h := Finset.sum_add_sum_compl X (rate_Qp conns g x)
  rw [rate_Qp_total] at h
  linarith

lemma rate_group_pores {n m : ℕ} (conns : Fin m → Fin n × Fin n) (g : Fin m → ℚ)
    (x : Vec n) (P : Finset (Fin n)) (hP : P.Nonempty) :
    rate conns g x P (∅ : Finset (Fin m)) "group"
      = Except.ok ({∑ p ∈ P, rate_Qp conns g x p} : Multiset ℚ) := by
  unfold rate
  rw [if_neg (fun h => Finset.not_nonempty_empty h.1),
    if_neg (fun h => h.2 hP), if_neg Finset.not_nonempty_empty]
  rfl

/-- Claim C7: for every quantity field, conductance assignment and node set
`X` (with `X` and its complement both non-empty so that the input validation
passes), the group-mode rate over `X` is the negative of the group-mode rate
over the complement of `X`: scatter-accumulated fluxes cancel globally. -/
theorem rate_group_flux_conservation {n m : ℕ} (conns : Fin m → Fin n × Fin n)
    (g : Fin m → ℚ) (x : Vec n) (X : Finset (Fin n))
    (hX : X.Nonempty) (hXc : Xᶜ.Nonempty) :
    rate conns g x X (∅ : Finset (Fin m)) "group"
      = Except.ok ({∑ p ∈ X, rate_Qp conns g x p} : Multiset ℚ)
    ∧ rate conns g x Xᶜ (∅ : Finset (Fin m)) "group"
      = Except.ok ({-(∑ p ∈ X, rate_Qp conns g x p)} : Multiset ℚ) := by
  refine ⟨rate_group_pores conns g x X hX, ?_⟩
  rw [rate_group_pores conns g x Xᶜ hXc, rate_Qp_sum_compl]

theorem rate_group_flux_conservation_witness :
    rate (fun _ : Fin 1 => ((0 : Fin 2), (1 : Fin 2))) (fun _ => (1 : ℚ))
        (fun i => if i = 0 then 1 else 0) ({0} : Finset (Fin 2)) ∅ "group"
      = Except.ok ({∑ p ∈ ({0} : Finset (Fin 2)),
          rate_Qp (fun _ : Fin 1 => ((0 : Fin 2), (1 : Fin 2))) (fun _ => (1 : ℚ))
            (fun i => if i = 0 then 1 else 0) p} : Multiset ℚ)
    ∧ rate (fun _ : Fin 1 => ((0 : Fin 2), (1 : Fin 2))) (fun _ => (1 : ℚ))
        (fun i => if i = 0 then 1 else 0) ({0} : Finset (Fin 2))ᶜ ∅ "group"
      = Except.ok ({-(∑ p ∈ ({0} : Finset (Fin 2)),
          rate_Qp (fun _ : Fin 1 => ((0 : Fin 2), (1 : Fin 2))) (fun _ => (1 : ℚ))
            (fun i => if i = 0 then 1 else 0) p)} : Multiset ℚ) :=
  rate_group_flux_conservation _ _ _ _ (by decide) (by decide)

/-! ## CG requires a symmetric matrix (claim C8) -/

lemma apply_BCs_no_BCs {n : ℕ} (A : Mat n) (b : Vec n) :
    apply_BCs (fun _ => none) (fun _ => none) A b = (A, b) := by
  unfold apply_BCs
  refine Prod.ext ?_ ?_
  · funext i j
    by_cases h : i = j
    · subst h; simp
    · simp [h]
  · funext k
    simp [matVec, x_BC_of]

/-- Claim C8: with the `cg` solver variant configured and an asymmetric
assembled matrix (here: no BCs to apply, so the working system is exactly the
assembled one), `run` fails with the symmetry configuration error no matter
which backend is plugged in — the backend is never consulted — and the
quantity field stays untouched. -/
theorem cg_rejects_asymmetric_matrix {n m : ℕ} (backend : Backend n)
    (conns : Fin m → Fin n × Fin n) (g : Fin m → ℚ) (st : AlgState n)
    (A : Mat n) (b : Vec n) (x0 : Option (Vec n)) (cache_A cache_b : Bool)
    (hA : st.work_A = some A) (hb : st.work_b = some b)
    (hr : st.bc_rate = fun _ => none) (hv : st.bc_value = fun _ => none)
    (hsym : ¬ is_symmetric A) :
    (run_generic backend "cg" cache_A cache_b conns g x0 st).2
      = some "CG solver only works on symmetric matrices."
    ∧ (run_generic backend "cg" cache_A cache_b conns g x0 st).1.quantity
      = st.quantity := by
  have h1 : get_b cache_b st = (b, st) := by
    unfold get_b
    rw [hb]
  have h2 : get_A cache_A conns g st = (A, st) := by
    unfold get_A
    rw [hA]
  have hstate : apply_BCs_state cache_A cache_b conns g st
      = { st with work_A := some A, work_b := some b } := by
    simp only [apply_BCs_state, h1, h2, hr, hv, apply_BCs_no_BCs]
  have hsolve : solve "cg" backend (some A) (some b) (fun _ => 0)
      = Except.error "CG solver only works on symmetric matrices." := by
    simp [solve, hsym]
  constructor
  · unfold run_generic
    rw [hstate]
    simp only [hsolve]
  · unfold run_generic
    rw [hstate]
    simp only [hsolve]

theorem cg_rejects_asymmetric_matrix_witness :
    (run_generic (fun _ _ _ => fun _ => 0) "cg" true true
        (fun e : Fin 0 => Fin.elim0 e) (fun e : Fin 0 => Fin.elim0 e)
        none stAsym).2
      = some "CG solver only works on symmetric matrices."
    ∧ (run_generic (fun _ _ _ => fun _ => 0) "cg" true true
        (fun e : Fin 0 => Fin.elim0 e) (fun e : Fin 0 => Fin.elim0 e)
        none stAsym).1.quantity = stAsym.quantity :=
  cg_rejects_asymmetric_matrix (fun _ _ _ => fun _ => 0)
    (fun e : Fin 0 => Fin.elim0 e) (fun e : Fin 0 => Fin.elim0 e) stAsym
    asymA (fun _ => 0) none true true rfl rfl rfl rfl (by decide)

/-! ## Repeated runs and the cached pure system (claim C3) -/

/-- Claim C3 (code bug): after a `run`, the cached pure system is indeed
untouched, but the working copies are left holding the BC-eliminated system
and `run` never resets them — so the `A`/`b` property reads that open the
next run's `_apply_BCs` (`_get_A`/`_get_b`) return the previous run's mutated
working system, not a fresh copy of the pure one. -/
theorem run_does_not_refresh_working_copy :
    stTwoRun.pure_A = some (build_pure_A twoConns twoG)
    ∧ stTwoRun.pure_b = some (fun _ => 0)
    ∧ (get_A true twoConns twoG stTwoRun).1 ≠ build_pure_A twoConns twoG
    ∧ (get_b true stTwoRun).1 ≠ (fun _ => (0 : ℚ)) := by
  have hA01 : (get_A true twoConns twoG stTwoRun).1 0 1 = 0 := by
    show (apply_BCs stTwo.bc_rate stTwo.bc_value (build_pure_A twoConns twoG)
      (fun _ => 0)).1 0 1 = 0
    simp +decide only [apply_BCs, stTwo, set_value_BC, set_BC, algInit]
  have hpure01 : build_pure_A twoConns twoG 0 1 = -1 := by
    simp +decide only [build_pure_A, laplacian, create_adjacency_matrix, twoConns,
      twoG, Fin.sum_univ_one]
    norm_num
  have hb0 : (get_b true stTwoRun).1 0 = 1 := by
    show (apply_BCs stTwo.bc_rate stTwo.bc_value (build_pure_A twoConns twoG)
      (fun _ => 0)).2 0 = 1
    simp +decide only [apply_BCs, mean_diag, stTwo, set_value_BC, set_BC, algInit,
      build_pure_A, laplacian, create_adjacency_matrix, twoConns, twoG,
      Fin.sum_univ_two, Fin.sum_univ_one, matVec, x_BC_of, Option.getD_some,
      Option.getD_none, Option.isSome_some, Option.isSome_none]
    norm_num
  refine ⟨rfl, rfl, fun hc => ?_, fun hc => ?_⟩
  · have h := congrFun (congrFun hc 0) 1
    rw [hA01, hpure01] at h
    norm_num at h
  · have h := congrFun hc 0
    rw [hb0] at h
    norm_num at h

/-! ## The five-node chain scenario (claim C6) -/

lemma chainA_eq : chainA = chainAmat := by
  funext i j
  fin_cases i <;> fin_cases j <;>
    simp +decide only [chainA, chainSystem, apply_BCs, stChain, set_value_BC,
      set_BC, algInit, build_pure_A, laplacian, create_adjacency_matrix,
      mean_diag, chainConns, chainG, chainAmat, Fin.sum_univ_five,
      Fin.sum_univ_four] <;>
    norm_num

lemma chainB_eq : chainB = chainBvec := by
  funext i
  fin_cases i <;>
    · simp +decide only [chainB, chainSystem, apply_BCs, stChain, set_value_BC,
        set_BC, algInit, build_pure_A, laplacian, create_adjacency_matrix,
        mean_diag, matVec, x_BC_of, Option.getD_some, Option.getD_none,
        Option.isSome_some, Option.isSome_none, chainConns, chainG, chainBvec,
        Fin.sum_univ_five, Fin.sum_univ_four]
      try simp
      try norm_num

lemma chain_solution_unique (x : Vec 5) (h : matVec chainA x = chainB) :
    x = chainX := by
  rw [chainA_eq, chainB_eq] at h
  have e0 := congrFun h 0
  have e1 := congrFun h 1
  have e2 := congrFun h 2
  have e3 := congrFun h 3
  have e4 := congrFun h 4
  simp [matVec, Fin.sum_univ_five, chainAmat, chainBvec] at e0 e1 e2 e3 e4
  have h0 : x 0 = 1 := by linarith
  have h1 : x 1 = 3/4 := by linarith
  have h2 : x 2 = 1/2 := by linarith
  have h3 : x 3 = 1/4 := by linarith
  have h4 : x 4 = 0 := by linarith
  funext i
  fin_cases i
  · exact h0
  · exact h1
  · exact h2
  · exact h3
  · exact h4

lemma chain_rate_node0 :
    rate chainConns chainG chainX ({0} : Finset (Fin 5)) (∅ : Finset (Fin 4))
      "group" = Except.ok ({(1 : ℚ)/4} : Multiset ℚ) := by
  rw [rate_group_pores chainConns chainG chainX {0} (by decide),
    Finset.sum_singleton]
  have h : rate_Qp chainConns chainG chainX 0 = 1/4 := by
    simp +decide [rate_Qp, rate_Qt, chainConns, chainG, chainX, Fin.sum_univ_four]
    try norm_num
  rw [h]

lemma chain_matVec : matVec chainA chainX = chainB := by
  rw [chainA_eq, chainB_eq]
  funext i
  fin_cases i <;>
    · simp [matVec, Fin.sum_univ_five, chainAmat, chainBvec, chainX]
      try norm_num

/-- Claim C6 (amended): on the 5-node chain with unit conductances, `Value`
BC `1.0` at node 0 and `0.0` at node 4, any backend that solves the assembled
system makes `run` succeed and store the quantity field
`[1, 3/4, 1/2, 1/4, 0]`, and `rate(pores=[0])` then returns `0.25` (not
`1.0` as claimed: the four unit conductances act in series, so the effective
conductance of the chain is `1/4`). -/
theorem chain_scenario (sol : Backend 5)
    (hsol : matVec chainA (sol chainA chainB (fun _ => 0)) = chainB) :
    (run_generic sol "spsolve" true true chainConns chainG none stChain).2 = none
    ∧ (run_generic sol "spsolve" true true chainConns chainG none stChain).1.quantity
      = some chainX
    ∧ rate chainConns chainG chainX ({0} : Finset (Fin 5)) (∅ : Finset (Fin 4))
        "group" = Except.ok ({(1 : ℚ)/4} : Multiset ℚ) := by
  have hx : sol chainA chainB (fun _ => 0) = chainX := chain_solution_unique _ hsol
  refine ⟨rfl, ?_, chain_rate_node0⟩
  show some (sol chainA chainB (fun _ => 0)) = some chainX
  exact congrArg some hx

/-- Claim C6 counterexample: in the chain scenario the stored quantity field
is `[1, 3/4, 1/2, 1/4, 0]` as claimed, but `rate(pores=[0])` evaluates to
`1/4`, not `1.0`. -/
theorem chain_rate_is_quarter_not_one :
    matVec chainA chainX = chainB
    ∧ (run_generic (fun _ _ _ => chainX) "spsolve" true true chainConns chainG
        none stChain).1.quantity = some chainX
    ∧ rate chainConns chainG chainX ({0} : Finset (Fin 5)) (∅ : Finset (Fin 4))
        "group" = Except.ok ({(1 : ℚ)/4} : Multiset ℚ)
    ∧ ({(1 : ℚ)/4} : Multiset ℚ) ≠ ({(1 : ℚ)} : Multiset ℚ) := by
  refine ⟨chain_matVec, rfl, chain_rate_node0, fun hc => ?_⟩
  rw [Multiset.singleton_inj] at hc
  norm_num at hc

theorem chain_scenario_witness :
    (run_generic (fun _ _ _ => chainX) "spsolve" true true chainConns chainG
        none stChain).2 = none
    ∧ (run_generic (fun _ _ _ => chainX) "spsolve" true true chainConns chainG
        none stChain).1.quantity = some chainX
    ∧ rate chainConns chainG chainX ({0} : Finset (Fin 5)) (∅ : Finset (Fin 4))
        "group" = Except.ok ({(1 : ℚ)/4} : Multiset ℚ) :=
  chain_scenario (fun _ _ _ => chainX) chain_matVec

theorem build_pure_A_is_graph_laplacian_witness :
    build_pure_A twoConns twoG 0 1 = build_pure_A twoConns twoG 1 0
    ∧ (∑ j, build_pure_A twoConns twoG 0 j) = 0
    ∧ build_pure_A twoConns twoG 0 1 = -(conductance_between twoConns twoG 0 1)
    ∧ build_pure_A twoConns twoG 0 0
      = -(∑ j ∈ Finset.univ.erase 0, build_pure_A twoConns twoG 0 j) :=
  ⟨(build_pure_A_is_graph_laplacian twoConns twoG).1 0 1,
    (build_pure_A_is_graph_laplacian twoConns twoG).2.1 0,
    (build_pure_A_is_graph_laplacian twoConns twoG).2.2.1 0 1 (by decide),
    (build_pure_A_is_graph_laplacian twoConns twoG).2.2.2 0⟩
